import Mathlib

/-
Verification of the av1-top job execution engine against its specification.

The Rust sources under src/ are shallowly embedded as executable Lean
definitions:
  * machine integers (u8/u32/u64/usize) are modelled as Nat;
  * f64 arithmetic on size ratios is modelled by exact rationals (Rat);
  * Rust String / &str values are modelled as List Char;
  * chrono timestamps are modelled as Int;
  * fallible operations return Option.
Each definition cites the source item it embeds.
-/

set_option autoImplicit false

namespace Av1Top

/-! ## constants.rs -/

namespace units

/-- KIB from constants.rs: a kibibyte. -/
def KIB : Nat := 1024

/-- MIB from constants.rs: a mebibyte. -/
def MIB : Nat := KIB * 1024

/-- GIB from constants.rs: a gibibyte. -/
def GIB : Nat := MIB * 1024

end units

namespace defaults

/-- QSV_QUALITY_BELOW_1080P from constants.rs. -/
def QSV_QUALITY_BELOW_1080P : Nat := 25

/-- QSV_QUALITY_AT_1080P from constants.rs. -/
def QSV_QUALITY_AT_1080P : Nat := 24

/-- QSV_QUALITY_AT_1440P_PLUS from constants.rs. -/
def QSV_QUALITY_AT_1440P_PLUS : Nat := 23

end defaults

namespace resolution

/-- HEIGHT_1080P from constants.rs. -/
def HEIGHT_1080P : Nat := 1080

end resolution

namespace bitdepth

/-- USE_10BIT_THRESHOLD from constants.rs. -/
def USE_10BIT_THRESHOLD : Nat := 10

end bitdepth

/-! ## postprocess.rs: check_size_gate (C1)

The Rust function reads the two file sizes from the filesystem and then
computes with them; the embedding takes the two sizes directly (the claim
quantifies over existing files, i.e. over the sizes the reads return).
`f64` division and comparison are modelled by exact rational arithmetic. -/

/-- SizeGateResult from postprocess.rs. -/
inductive SizeGateResult where
  | Passed (original_bytes new_bytes : Nat) (savings : ℚ)
  | Failed (original_bytes new_bytes : Nat) (rat threshold : ℚ)
  deriving DecidableEq

/-- check_size_gate from postprocess.rs: compares new/original against the
configured factor; the boundary is inclusive. -/
def check_size_gate (original_bytes new_bytes : Nat) (size_gate_factor : ℚ) :
    SizeGateResult :=
  let r : ℚ := (new_bytes : ℚ) / (original_bytes : ℚ)
  if r ≤ size_gate_factor then
    .Passed original_bytes new_bytes (1 - r)
  else
    .Failed original_bytes new_bytes r size_gate_factor

/-! ## heuristics.rs: choose_quality (C3) and choose_surface -/

/-- choose_quality from heuristics.rs: if/else-if chain on the video height. -/
def choose_quality (height : Nat) : Nat :=
  if height < resolution.HEIGHT_1080P then
    defaults.QSV_QUALITY_BELOW_1080P
  else if height = resolution.HEIGHT_1080P then
    defaults.QSV_QUALITY_AT_1080P
  else
    defaults.QSV_QUALITY_AT_1440P_PLUS

/-- choose_surface from heuristics.rs: p010 for bit depth at least 10,
nv12 otherwise. -/
def choose_surface (bit_depth : Nat) : List Char :=
  if bitdepth.USE_10BIT_THRESHOLD ≤ bit_depth then ("p010").data else ("nv12").data

/-! ## Claim C1 -/

/-- C1: for existing files of sizes O and N and a configured factor f,
check_size_gate returns Passed with savings 1 - N/O exactly when N/O ≤ f
(the boundary is inclusive), and otherwise returns Failed carrying the
ratio N/O and the threshold f. -/
theorem C1_size_gate (O N : Nat) (f : ℚ) (hO : 0 < O) :
    (check_size_gate O N f = .Passed O N (1 - (N : ℚ) / (O : ℚ)) ↔ (N : ℚ) / (O : ℚ) ≤ f)
    ∧ (¬ ((N : ℚ) / (O : ℚ) ≤ f) →
        check_size_gate O N f = .Failed O N ((N : ℚ) / (O : ℚ)) f) := by
  constructor
  · constructor
    · intro h
      by_contra hle
      simp only [check_size_gate, if_neg hle] at h
      exact SizeGateResult.noConfusion h
    · intro h
      simp only [check_size_gate, if_pos h]
  · intro h
    simp only [check_size_gate, if_neg h]

/-- Witness for C1 at O = 1000, N = 900, f = 9/10: the boundary ratio passes. -/
theorem C1_size_gate_witness :
    check_size_gate 1000 900 (9/10) = .Passed 1000 900 (1 - (900 : ℚ) / (1000 : ℚ)) := by
  exact (C1_size_gate 1000 900 (9/10) (by norm_num)).1.mpr (by norm_num)

/-! ## Claim C3 -/

/-- C3: choose_quality returns the Tier-Low value 25 for heights below 1080,
the Tier-Mid value 24 at exactly 1080, and the Tier-High value 23 for every
other height — in particular every height strictly between 1080 and 1440
also yields the Tier-High value. -/
theorem C3_choose_quality (h : Nat) :
    (h < 1080 → choose_quality h = 25)
    ∧ (h = 1080 → choose_quality h = 24)
    ∧ (1080 < h → choose_quality h = 23) := by
  refine ⟨?_, ?_, ?_⟩
  · intro hlt
    simp [choose_quality, resolution.HEIGHT_1080P, defaults.QSV_QUALITY_BELOW_1080P, hlt]
  · intro he
    subst he
    simp [choose_quality, resolution.HEIGHT_1080P, defaults.QSV_QUALITY_AT_1080P]
  · intro hgt
    have h1 : ¬ h < 1080 := by omega
    have h2 : ¬ h = 1080 := by omega
    simp [choose_quality, resolution.HEIGHT_1080P, defaults.QSV_QUALITY_AT_1440P_PLUS, h1, h2]

/-- Witness for C3 at heights 720, 1080 and 1200 (the last one lies in the
boundary gap 1081..1439 and still resolves to Tier-High). -/
theorem C3_choose_quality_witness :
    choose_quality 720 = 25 ∧ choose_quality 1080 = 24 ∧ choose_quality 1200 = 23 :=
  ⟨(C3_choose_quality 720).1 (by decide),
   (C3_choose_quality 1080).2.1 rfl,
   (C3_choose_quality 1200).2.2 (by decide)⟩

/-! ## String helpers

Rust strings are modelled as List Char. `leadsWith` embeds
`str::starts_with`, `containsSeq` embeds `str::contains` (substring test),
`lowercase` embeds `str::to_lowercase` (per-character, which is exact for
the ASCII needles used by the heuristics). -/

/-- Boolean test that the second list starts with the first. -/
def leadsWith : List Char → List Char → Bool
  | [], _ => true
  | _ :: _, [] => false
  | c :: cs, d :: ds => c == d && leadsWith cs ds

/-- Boolean substring test: the first list occurs contiguously in the second. -/
def containsSeq (n : List Char) : List Char → Bool
  | [] => leadsWith n []
  | c :: cs => leadsWith n (c :: cs) || containsSeq n cs

/-- Per-character lowercasing of a modelled string. -/
def lowercase (s : List Char) : List Char := s.map Char.toLower

theorem leadsWith_iff (n h : List Char) : leadsWith n h = true ↔ ∃ t, h = n ++ t := by
  induction n generalizing h with
  | nil => simp [leadsWith]
  | cons c cs ih =>
    cases h with
    | nil =>
      simp [leadsWith]
    | cons d ds =>
      simp only [leadsWith, Bool.and_eq_true, beq_iff_eq, ih, List.cons_append,
        List.cons.injEq]
      constructor
      · rintro ⟨hcd, t, ht⟩
        exact ⟨t, hcd.symm, ht⟩
      · rintro ⟨t, hdc, ht⟩
        exact ⟨hdc.symm, t, ht⟩

theorem containsSeq_iff (n h : List Char) :
    containsSeq n h = true ↔ ∃ a b, h = a ++ (n ++ b) := by
  induction h with
  | nil =>
    simp only [containsSeq, leadsWith_iff]
    constructor
    · rintro ⟨t, ht⟩
      exact ⟨[], t, ht⟩
    · rintro ⟨a, b, hab⟩
      rcases List.append_eq_nil.mp hab.symm with ⟨ha, hnb⟩
      exact ⟨b, by simp [ha] at hab ⊢; exact hab⟩
  | cons c cs ih =>
    simp only [containsSeq, Bool.or_eq_true, leadsWith_iff, ih]
    constructor
    · rintro (⟨t, ht⟩ | ⟨a, b, hab⟩)
      · exact ⟨[], t, by simpa using ht⟩
      · exact ⟨c :: a, b, by simp [hab]⟩
    · rintro ⟨a, b, hab⟩
      cases a with
      | nil =>
        exact Or.inl ⟨b, by simpa using hab⟩
      | cons x a2 =>
        rw [List.cons_append] at hab
        rcases List.cons.injEq .. ▸ hab with ⟨hcx, hcs⟩
        exact Or.inr ⟨a2, b, by simpa using hcs⟩

/-! ## metadata.rs -/

/-- VideoStreamInfo from metadata.rs. -/
structure VideoStreamInfo where
  codec : List Char
  width : Nat
  height : Nat
  bit_depth : Nat
  is_default : Bool
  avg_frame_rate : List Char
  r_frame_rate : List Char
  deriving DecidableEq

/-- VideoStreamInfo::is_vfr from metadata.rs: average and real frame rate
strings differ. -/
def VideoStreamInfo.is_vfr (s : VideoStreamInfo) : Bool :=
  s.avg_frame_rate != s.r_frame_rate

/-- VideoStreamInfo::has_odd_dimensions from metadata.rs. -/
def VideoStreamInfo.has_odd_dimensions (s : VideoStreamInfo) : Bool :=
  (s.width % 2 != 0) || (s.height % 2 != 0)

/-- FileMetadata from metadata.rs. -/
structure FileMetadata where
  video_streams : List VideoStreamInfo
  format_name : List Char
  tags_muxing_app : Option (List Char)
  tags_major_brand : Option (List Char)
  tags_compatible_brands : Option (List Char)
  size : Option Nat
  deriving DecidableEq

/-! ## heuristics.rs: is_webrip_like (C4) -/

/-- Needle "mp4" checked by is_webrip_like. -/
def mp4_chars : List Char := ("mp4").data

/-- Needle "mov" checked by is_webrip_like. -/
def mov_chars : List Char := ("mov").data

/-- Needle "webm" checked by is_webrip_like. -/
def webm_chars : List Char := ("webm").data

/-- is_webrip_like from heuristics.rs: format-name substring check, then a
scan of the video streams for VFR or odd dimensions. -/
def is_webrip_like (meta : FileMetadata) : Bool :=
  let format_lower := lowercase meta.format_name
  if containsSeq mp4_chars format_lower || containsSeq mov_chars format_lower
      || containsSeq webm_chars format_lower then
    true
  else
    meta.video_streams.any (fun s => s.is_vfr || s.has_odd_dimensions)

/-! ## Claim C4 -/

/-- C4: is_webrip_like holds exactly when at least one of the three
predicates holds: the lowercased format name contains "mp4", "mov" or
"webm"; some video stream has differing average and real frame rates (VFR);
some video stream has an odd width or height.  The iff in particular gives
that each predicate alone forces true and that all three false force false. -/
theorem C4_is_webrip_like (m : FileMetadata) :
    is_webrip_like m = true ↔
      ((∃ a b, lowercase m.format_name = a ++ (mp4_chars ++ b))
        ∨ (∃ a b, lowercase m.format_name = a ++ (mov_chars ++ b))
        ∨ (∃ a b, lowercase m.format_name = a ++ (webm_chars ++ b)))
      ∨ (∃ s ∈ m.video_streams, s.avg_frame_rate ≠ s.r_frame_rate)
      ∨ (∃ s ∈ m.video_streams, s.width % 2 ≠ 0 ∨ s.height % 2 ≠ 0) := by
  simp only [is_webrip_like]
  by_cases hc : (containsSeq mp4_chars (lowercase m.format_name)
      || containsSeq mov_chars (lowercase m.format_name)
      || containsSeq webm_chars (lowercase m.format_name)) = true
  · rw [if_pos hc]
    simp only [true_iff]
    left
    simp only [Bool.or_eq_true, containsSeq_iff] at hc
    rcases hc with (h | h) | h
    · exact Or.inl h
    · exact Or.inr (Or.inl h)
    · exact Or.inr (Or.inr h)
  · rw [if_neg hc]
    simp only [Bool.or_eq_true, containsSeq_iff] at hc
    push_neg at hc
    simp only [List.any_eq_true, Bool.or_eq_true,
      VideoStreamInfo.is_vfr, VideoStreamInfo.has_odd_dimensions, bne_iff_ne, ne_eq]
    constructor
    · rintro ⟨s, hs, hvfr | hodd⟩
      · exact Or.inr (Or.inl ⟨s, hs, hvfr⟩)
      · exact Or.inr (Or.inr ⟨s, hs, by tauto⟩)
    · rintro (hfmt | ⟨s, hs, hvfr⟩ | ⟨s, hs, hodd⟩)
      · exact absurd hfmt (by tauto)
      · exact ⟨s, hs, Or.inl hvfr⟩
      · exact ⟨s, hs, Or.inr (by tauto)⟩

/-! ## Numeric parsing helpers

`parse_u8` embeds Rust's `str::parse::<u8>()` (optional leading '+', at
least one ASCII digit, value at most 255), `parse_u64` the `u64` variant. -/

/-- Value of a digit string, most significant digit first. -/
def digitsVal (l : List Char) : Nat :=
  l.foldl (fun a c => a * 10 + (c.toNat - ('0').toNat)) 0

/-- Boolean test that every character is an ASCII digit. -/
def allDigits (l : List Char) : Bool := l.all Char.isDigit

/-- Parses a nonempty all-digit string to its value, and fails otherwise. -/
def digitsToNat? (l : List Char) : Option Nat :=
  if l ≠ [] ∧ allDigits l = true then some (digitsVal l) else none

/-- Embedding of Rust `str::parse::<u8>()`. -/
def parse_u8 (s : List Char) : Option Nat :=
  match s with
  | '+' :: r =>
    match digitsToNat? r with
    | some v => if v ≤ 255 then some v else none
    | none => none
  | _ =>
    match digitsToNat? s with
    | some v => if v ≤ 255 then some v else none
    | none => none

/-- Embedding of Rust `str::parse::<u64>()`. -/
def parse_u64 (s : List Char) : Option Nat :=
  match s with
  | '+' :: r =>
    match digitsToNat? r with
    | some v => if v < 2 ^ 64 then some v else none
    | none => none
  | _ =>
    match digitsToNat? s with
    | some v => if v < 2 ^ 64 then some v else none
    | none => none

/-! ## ffprobe.rs: parse_bit_depth (C5) -/

/-- Marker "10le" checked by parse_bit_depth. -/
def m10le_chars : List Char := ("10le").data

/-- Marker "10be" checked by parse_bit_depth. -/
def m10be_chars : List Char := ("10be").data

/-- Marker "p10" checked by parse_bit_depth. -/
def p10_chars : List Char := ("p10").data

/-- Marker "12le" checked by parse_bit_depth. -/
def m12le_chars : List Char := ("12le").data

/-- Marker "12be" checked by parse_bit_depth. -/
def m12be_chars : List Char := ("12be").data

/-- Marker "p12" checked by parse_bit_depth. -/
def p12_chars : List Char := ("p12").data

/-- Marker "16le" checked by parse_bit_depth. -/
def m16le_chars : List Char := ("16le").data

/-- Marker "16be" checked by parse_bit_depth. -/
def m16be_chars : List Char := ("16be").data

/-- Marker "p16" checked by parse_bit_depth. -/
def p16_chars : List Char := ("p16").data

/-- Fallthrough part of parse_bit_depth from ffprobe.rs: substring match on
the lowercased pixel-format name for 10-, then 12-, then 16-bit markers,
defaulting to 8. -/
def bit_depth_from_pix_fmt (pix_fmt : Option (List Char)) : Nat :=
  match pix_fmt with
  | some fmt =>
    let fmt_lower := lowercase fmt
    if containsSeq m10le_chars fmt_lower || containsSeq m10be_chars fmt_lower
        || containsSeq p10_chars fmt_lower then 10
    else if containsSeq m12le_chars fmt_lower || containsSeq m12be_chars fmt_lower
        || containsSeq p12_chars fmt_lower then 12
    else if containsSeq m16le_chars fmt_lower || containsSeq m16be_chars fmt_lower
        || containsSeq p16_chars fmt_lower then 16
    else 8
  | none => 8

/-- parse_bit_depth from ffprobe.rs: bits_per_raw_sample first, then the
pixel-format name markers, then the 8-bit default. -/
def parse_bit_depth (pix_fmt : Option (List Char)) (bits_str : Option (List Char)) : Nat :=
  match bits_str with
  | some bits =>
    match parse_u8 bits with
    | some depth => depth
    | none => bit_depth_from_pix_fmt pix_fmt
  | none => bit_depth_from_pix_fmt pix_fmt

/-- The lowercased pixel-format name contains a 10-bit marker. -/
def HasMarker10 (fl : List Char) : Prop :=
  (∃ a b, fl = a ++ (m10le_chars ++ b)) ∨ (∃ a b, fl = a ++ (m10be_chars ++ b))
    ∨ (∃ a b, fl = a ++ (p10_chars ++ b))

/-- The lowercased pixel-format name contains a 12-bit marker. -/
def HasMarker12 (fl : List Char) : Prop :=
  (∃ a b, fl = a ++ (m12le_chars ++ b)) ∨ (∃ a b, fl = a ++ (m12be_chars ++ b))
    ∨ (∃ a b, fl = a ++ (p12_chars ++ b))

/-- The lowercased pixel-format name contains a 16-bit marker. -/
def HasMarker16 (fl : List Char) : Prop :=
  (∃ a b, fl = a ++ (m16le_chars ++ b)) ∨ (∃ a b, fl = a ++ (m16be_chars ++ b))
    ∨ (∃ a b, fl = a ++ (p16_chars ++ b))

theorem marker10_iff (fl : List Char) :
    (containsSeq m10le_chars fl || containsSeq m10be_chars fl
      || containsSeq p10_chars fl) = true ↔ HasMarker10 fl := by
  simp [HasMarker10, Bool.or_eq_true, containsSeq_iff, or_assoc]

theorem marker12_iff (fl : List Char) :
    (containsSeq m12le_chars fl || containsSeq m12be_chars fl
      || containsSeq p12_chars fl) = true ↔ HasMarker12 fl := by
  simp [HasMarker12, Bool.or_eq_true, containsSeq_iff, or_assoc]

theorem marker16_iff (fl : List Char) :
    (containsSeq m16le_chars fl || containsSeq m16be_chars fl
      || containsSeq p16_chars fl) = true ↔ HasMarker16 fl := by
  simp [HasMarker16, Bool.or_eq_true, containsSeq_iff, or_assoc]

theorem bool_eq_false_of_prop {b : Bool} {P : Prop} (h : b = true ↔ P) (hp : ¬ P) :
    b = false := by
  cases hb : b
  · rfl
  · exact absurd (h.mp hb) hp

theorem bit_depth_from_pix_fmt_cases (fmt : List Char) :
    (HasMarker10 (lowercase fmt) → bit_depth_from_pix_fmt (some fmt) = 10)
    ∧ (¬ HasMarker10 (lowercase fmt) → HasMarker12 (lowercase fmt) →
        bit_depth_from_pix_fmt (some fmt) = 12)
    ∧ (¬ HasMarker10 (lowercase fmt) → ¬ HasMarker12 (lowercase fmt) →
        HasMarker16 (lowercase fmt) → bit_depth_from_pix_fmt (some fmt) = 16)
    ∧ (¬ HasMarker10 (lowercase fmt) → ¬ HasMarker12 (lowercase fmt) →
        ¬ HasMarker16 (lowercase fmt) → bit_depth_from_pix_fmt (some fmt) = 8) := by
  refine ⟨?_, ?_, ?_, ?_⟩
  · intro h10
    simp only [bit_depth_from_pix_fmt]
    rw [if_pos ((marker10_iff _).mpr h10)]
  · intro h10 h12
    simp only [bit_depth_from_pix_fmt]
    rw [if_neg (by simp [bool_eq_false_of_prop (marker10_iff _) h10]),
      if_pos ((marker12_iff _).mpr h12)]
  · intro h10 h12 h16
    simp only [bit_depth_from_pix_fmt]
    rw [if_neg (by simp [bool_eq_false_of_prop (marker10_iff _) h10]),
      if_neg (by simp [bool_eq_false_of_prop (marker12_iff _) h12]),
      if_pos ((marker16_iff _).mpr h16)]
  · intro h10 h12 h16
    simp only [bit_depth_from_pix_fmt]
    rw [if_neg (by simp [bool_eq_false_of_prop (marker10_iff _) h10]),
      if_neg (by simp [bool_eq_false_of_prop (marker12_iff _) h12]),
      if_neg (by simp [bool_eq_false_of_prop (marker16_iff _) h16])]

/-! ## Claim C5 -/

/-- C5: parse_bit_depth resolves in order — a present, numerically parsable
bits_per_raw_sample wins; otherwise the lowercased pixel-format name is
matched for 10-bit markers first, then 12-bit, then 16-bit (so a name with
both a 10-bit and a 12-bit marker yields 10); otherwise 8.  A missing
pixel-format name with no usable bits value also yields 8. -/
theorem C5_parse_bit_depth (fmt : List Char) (bits : Option (List Char)) (d : Nat) :
    ((∃ b, bits = some b ∧ parse_u8 b = some d) → parse_bit_depth (some fmt) bits = d)
    ∧ ((bits = none ∨ ∃ b, bits = some b ∧ parse_u8 b = none) →
        ((HasMarker10 (lowercase fmt) → parse_bit_depth (some fmt) bits = 10)
          ∧ (¬ HasMarker10 (lowercase fmt) → HasMarker12 (lowercase fmt) →
              parse_bit_depth (some fmt) bits = 12)
          ∧ (¬ HasMarker10 (lowercase fmt) → ¬ HasMarker12 (lowercase fmt) →
              HasMarker16 (lowercase fmt) → parse_bit_depth (some fmt) bits = 16)
          ∧ (¬ HasMarker10 (lowercase fmt) → ¬ HasMarker12 (lowercase fmt) →
              ¬ HasMarker16 (lowercase fmt) → parse_bit_depth (some fmt) bits = 8)))
    ∧ ((bits = none ∨ ∃ b, bits = some b ∧ parse_u8 b = none) →
        parse_bit_depth none bits = 8) := by
  refine ⟨?_, ?_, ?_⟩
  · rintro ⟨b, hb, hpb⟩
    subst hb
    simp [parse_bit_depth, hpb]
  · rintro (hb | ⟨b, hb, hpb⟩)
    · subst hb
      simpa [parse_bit_depth] using bit_depth_from_pix_fmt_cases fmt
    · subst hb
      simpa [parse_bit_depth, hpb] using bit_depth_from_pix_fmt_cases fmt
  · rintro (hb | ⟨b, hb, hpb⟩)
    · subst hb
      simp [parse_bit_depth, bit_depth_from_pix_fmt]
    · subst hb
      simp [parse_bit_depth, hpb, bit_depth_from_pix_fmt]

/-- Witness for C5: the pixel-format name "p10p12" carries both a 10-bit and
a 12-bit marker; with an unparsable bits_per_raw_sample of "abc" the
resolved depth is 10, and with bits_per_raw_sample "12" it is 12. -/
theorem C5_parse_bit_depth_witness :
    parse_bit_depth (some (("p10p12").data)) (some (("abc").data)) = 10
    ∧ parse_bit_depth (some (("p10p12").data)) (some (("12").data)) = 12 := by
  constructor
  · exact ((C5_parse_bit_depth (("p10p12").data) (some (("abc").data)) 0).2.1
      (Or.inr ⟨(("abc").data), rfl, by decide⟩)).1
      (Or.inr (Or.inr ⟨[], (("p12").data), by decide⟩))
  · exact (C5_parse_bit_depth (("p10p12").data) (some (("12").data)) 12).1
      ⟨(("12").data), rfl, by decide⟩

/-! ## More string helpers for executor.rs and utils.rs -/

/-- Helper for splitWs: current in-progress word is kept reversed. -/
def splitWsAux : List Char → List Char → List (List Char)
  | [], cur => if cur.isEmpty then [] else [cur.reverse]
  | c :: cs, cur =>
    if c.isWhitespace then
      if cur.isEmpty then splitWsAux cs [] else cur.reverse :: splitWsAux cs []
    else splitWsAux cs (c :: cur)

/-- Embedding of Rust `str::split_whitespace` (nonempty words only). -/
def splitWs (l : List Char) : List (List Char) := splitWsAux l []

/-- Embedding of `str::split_once('=')`: splits at the first '='. -/
def splitOnceEq : List Char → Option (List Char × List Char)
  | [] => none
  | c :: cs =>
    if c = '=' then some ([], cs)
    else (splitOnceEq cs).map (fun p => (c :: p.1, p.2))

/-- Embedding of Rust `str::split(sep)`: keeps empty groups, always returns
at least one group. -/
def splitOnChar (sep : Char) : List Char → List (List Char)
  | [] => [[]]
  | c :: cs =>
    if c = sep then [] :: splitOnChar sep cs
    else
      match splitOnChar sep cs with
      | [] => [[c]]
      | g :: gs => (c :: g) :: gs

/-- Embedding of Rust `str::strip_suffix`. -/
def stripSfx (sfx l : List Char) : Option (List Char) :=
  if leadsWith sfx.reverse l.reverse then some (l.take (l.length - sfx.length))
  else none

/-- Magnitude part of an f64 literal: digits with an optional fractional
part, as an exact rational. -/
def parse_f64_mag (t : List Char) : Option ℚ :=
  match splitOnChar ('.') t with
  | [ip] => (digitsToNat? ip).map (fun n => (n : ℚ))
  | [ip, fp] =>
    if ip.isEmpty && fp.isEmpty then none
    else if allDigits ip && allDigits fp then
      some ((digitsVal ip : ℚ) + (digitsVal fp : ℚ) / ((10 : ℚ) ^ fp.length))
    else none
  | _ => none

/-- Embedding of Rust `str::parse::<f64>()` over exact rationals, for the
plain decimal literals ffmpeg emits (sign, digits, optional fraction;
exponent, inf and NaN forms are treated as unparsable). -/
def parse_f64 (s : List Char) : Option ℚ :=
  match s with
  | '-' :: r => (parse_f64_mag r).map (fun q => -q)
  | '+' :: r => parse_f64_mag r
  | _ => parse_f64_mag s

/-! ## utils.rs: parse_size_with_unit and parse_time_to_seconds -/

/-- parse_size_with_unit from utils.rs: strips a kB/MB/GB unit, parses the
rest as u64, and defaults every failure to 0. -/
def parse_size_with_unit (s : List Char) : Nat :=
  match stripSfx (("kB").data) s with
  | some t => (parse_u64 t).getD 0 * units.KIB
  | none =>
    match stripSfx (("MB").data) s with
    | some t => (parse_u64 t).getD 0 * units.MIB
    | none =>
      match stripSfx (("GB").data) s with
      | some t => (parse_u64 t).getD 0 * units.GIB
      | none => (parse_u64 s).getD 0

/-- parse_time_to_seconds from utils.rs: H:MM:SS.frac, any unparsable part
defaulting to 0, and 0 when there are not exactly three ':'-groups. -/
def parse_time_to_seconds (s : List Char) : ℚ :=
  match splitOnChar (':') s with
  | [h, m, sec] =>
    (parse_f64 h).getD 0 * 3600 + (parse_f64 m).getD 0 * 60 + (parse_f64 sec).getD 0
  | _ => 0

/-! ## executor.rs: parse_ffmpeg_progress (C6)

`Duration::from_secs_f64` is modelled by keeping the elapsed time as an
exact rational number of seconds. -/

/-- TranscodeProgress from executor.rs. -/
structure TranscodeProgress where
  frame : Nat
  fps : ℚ
  size_bytes : Nat
  time : ℚ
  speed : ℚ
  deriving DecidableEq

/-- Accumulator for the mutable locals of parse_ffmpeg_progress. -/
structure ProgAcc where
  frame : Nat
  fps : ℚ
  size_bytes : Nat
  time_secs : ℚ
  speed : ℚ
  deriving DecidableEq

/-- Key "frame" matched by parse_ffmpeg_progress. -/
def frame_key : List Char := ("frame").data

/-- Key "fps" matched by parse_ffmpeg_progress. -/
def fps_key : List Char := ("fps").data

/-- Key "size" matched by parse_ffmpeg_progress. -/
def size_key : List Char := ("size").data

/-- Key "time" matched by parse_ffmpeg_progress. -/
def time_key : List Char := ("time").data

/-- Key "speed" matched by parse_ffmpeg_progress. -/
def speed_key : List Char := ("speed").data

/-- The "x" multiplier marker stripped from the speed value. -/
def x_chars : List Char := ("x").data

/-- One iteration of the key=value loop of parse_ffmpeg_progress. -/
def progress_step (acc : ProgAcc) (part : List Char) : ProgAcc :=
  match splitOnceEq part with
  | none => acc
  | some (key, value) =>
    if key = frame_key then { acc with frame := (parse_u64 value).getD 0 }
    else if key = fps_key then { acc with fps := (parse_f64 value).getD 0 }
    else if key = size_key then { acc with size_bytes := parse_size_with_unit value }
    else if key = time_key then { acc with time_secs := parse_time_to_seconds value }
    else if key = speed_key then
      match stripSfx x_chars value with
      | some stripped => { acc with speed := (parse_f64 stripped).getD 0 }
      | none => acc
    else acc

/-- Loop plus final frame>0 check of parse_ffmpeg_progress, on an already
whitespace-split token list. -/
def progress_tokens (parts : List (List Char)) : Option TranscodeProgress :=
  let acc := parts.foldl progress_step ⟨0, 0, 0, 0, 0⟩
  if 0 < acc.frame then
    some ⟨acc.frame, acc.fps, acc.size_bytes, acc.time_secs, acc.speed⟩
  else none

/-- parse_ffmpeg_progress from executor.rs. -/
def parse_ffmpeg_progress (line : List Char) : Option TranscodeProgress :=
  progress_tokens (splitWs line)

/-- Key part of a key=value token, if the token contains '='. -/
def tokenKey (part : List Char) : Option (List Char) :=
  (splitOnceEq part).map (fun p => p.1)

/-- Boolean test that a token is a frame=... token. -/
def isFrameToken (part : List Char) : Bool :=
  match splitOnceEq part with
  | some (k, _) => decide (k = frame_key)
  | none => false

theorem progress_step_frame_eq (acc : ProgAcc) (part : List Char)
    (h : tokenKey part ≠ some frame_key) :
    (progress_step acc part).frame = acc.frame := by
  unfold progress_step
  cases hsp : splitOnceEq part with
  | none => rfl
  | some kv =>
    obtain ⟨k, v⟩ := kv
    have hk : ¬ k = frame_key := by
      intro he
      exact h (by simp [tokenKey, hsp, he])
    dsimp only
    rw [if_neg hk]
    split
    · rfl
    · split
      · rfl
      · split
        · rfl
        · split
          · split
            · rfl
            · rfl
          · rfl

theorem tokenKey_of_not_frame (part : List Char) (h : isFrameToken part = false) :
    tokenKey part ≠ some frame_key := by
  unfold isFrameToken at h
  cases hsp : splitOnceEq part with
  | none => simp [tokenKey, hsp]
  | some kv =>
    obtain ⟨k, v⟩ := kv
    rw [hsp] at h
    simp only [decide_eq_false_iff_not] at h
    simp [tokenKey, hsp]
    exact h

theorem progress_step_frame_indep (a b : ProgAcc) (part : List Char)
    (h : isFrameToken part = true) :
    (progress_step a part).frame = (progress_step b part).frame := by
  unfold isFrameToken at h
  cases hsp : splitOnceEq part with
  | none => rw [hsp] at h; exact absurd h (by simp)
  | some kv =>
    obtain ⟨k, v⟩ := kv
    rw [hsp] at h
    have hk : k = frame_key := by simpa using h
    simp [progress_step, hsp, hk]

theorem foldl_frame_filter (ts : List (List Char)) :
    ∀ a b : ProgAcc, a.frame = b.frame →
      (ts.foldl progress_step a).frame
        = ((ts.filter isFrameToken).foldl progress_step b).frame := by
  induction ts with
  | nil =>
    intro a b h
    simpa using h
  | cons t ts ih =>
    intro a b h
    cases hft : isFrameToken t
    · rw [List.foldl_cons, List.filter_cons, if_neg (by simp [hft])]
      exact ih _ b ((progress_step_frame_eq a t (tokenKey_of_not_frame t hft)).trans h)
    · rw [List.foldl_cons, List.filter_cons, if_pos (by simp [hft]), List.foldl_cons]
      exact ih _ _ (progress_step_frame_indep a b t hft)

theorem progress_tokens_none_iff (ts : List (List Char)) :
    progress_tokens ts = none ↔ (ts.foldl progress_step ⟨0, 0, 0, 0, 0⟩).frame = 0 := by
  simp only [progress_tokens]
  split
  · rename_i hpos
    constructor
    · intro h
      exact Option.noConfusion h
    · intro h
      omega
  · rename_i hpos
    simp only [true_iff]
    omega

/-! ## Claims C6 -/

/-- C6 counterexample: the diagnostic line "frame=5 fps=abc" contains the
unparsable telemetry value "abc" for fps, yet parse_ffmpeg_progress does
not return None — it yields a progress event with the fps defaulted to 0.
This refutes the claim that a line containing an unparsable telemetry value
yields no progress event. -/
theorem C6_progress_counterexample :
    parse_f64 (("abc").data) = none
    ∧ parse_ffmpeg_progress (("frame=5 fps=abc").data) = some ⟨5, 0, 0, 0, 0⟩ := by
  constructor
  · rfl
  · rfl

/-- C6 amended: parse_ffmpeg_progress yields no progress event for a line
with no frame=... token; every delivered event has a positive frame count
(so a line reporting frame 0 is silently dropped and first-frame progress
is invisible); and whether a line is dropped depends only on its frame=...
tokens — an unparsable value in any other field is defaulted to 0 and never
suppresses the event (and no line is treated as a fatal error: the parser
is a total function into Option). -/
theorem C6_progress_parsing (line : List Char) :
    ((∀ part ∈ splitWs line, tokenKey part ≠ some frame_key) →
        parse_ffmpeg_progress line = none)
    ∧ (∀ p, parse_ffmpeg_progress line = some p → 0 < p.frame)
    ∧ (parse_ffmpeg_progress line = none ↔
        progress_tokens ((splitWs line).filter isFrameToken) = none) := by
  refine ⟨?_, ?_, ?_⟩
  · intro hall
    have hfe : (splitWs line).filter isFrameToken = [] := by
      rw [List.filter_eq_nil_iff]
      intro part hpart
      intro hft
      exact hall part hpart (by
        unfold isFrameToken at hft
        cases hsp : splitOnceEq part with
        | none => rw [hsp] at hft; exact absurd hft (by simp)
        | some kv =>
          obtain ⟨k, v⟩ := kv
          rw [hsp] at hft
          have hk : k = frame_key := by simpa using hft
          simp [tokenKey, hsp, hk])
    have h0 : ((splitWs line).foldl progress_step ⟨0, 0, 0, 0, 0⟩).frame = 0 := by
      rw [foldl_frame_filter (splitWs line) _ ⟨0, 0, 0, 0, 0⟩ rfl, hfe]
      rfl
    exact (progress_tokens_none_iff (splitWs line)).mpr h0
  · intro p hp
    unfold parse_ffmpeg_progress progress_tokens at hp
    dsimp only at hp
    by_cases hpos : 0 < ((splitWs line).foldl progress_step ⟨0, 0, 0, 0, 0⟩).frame
    · rw [if_pos hpos] at hp
      cases hp
      exact hpos
    · rw [if_neg hpos] at hp
      exact Option.noConfusion hp
  · unfold parse_ffmpeg_progress
    rw [progress_tokens_none_iff, progress_tokens_none_iff,
      foldl_frame_filter (splitWs line) ⟨0, 0, 0, 0, 0⟩ ⟨0, 0, 0, 0, 0⟩ rfl]

/-- Witness for C6 at a diagnostic line with no frame count: no progress
event is produced. -/
theorem C6_progress_witness :
    parse_ffmpeg_progress (("q=-0.0 bitrate=N/A").data) = none :=
  (C6_progress_parsing (("q=-0.0 bitrate=N/A").data)).1 (by decide)

/-! ## postprocess.rs: replace_file_atomic (C2)

The filesystem is modelled as a map from paths to file contents.
`fsRename` and `fsRemove` embed `fs::rename` and `fs::remove_file`, which
fail exactly when the source path does not exist; `fail2` injects a failure
into the second rename, the fault the spec's replacement-protocol test
injects.  The collision-free backup name derived from the stem and a fresh
UUID is modelled as the `backup_path` parameter. -/

/-- A flat filesystem: path to contents. -/
def SimFS : Type := List Char → Option (List Char)

/-- Embedding of `fs::rename`: moves the contents at src to dst. -/
def fsRename (fs : SimFS) (src dst : List Char) : Option SimFS :=
  match fs src with
  | none => none
  | some b => some (fun p => if p = dst then some b else if p = src then none else fs p)

/-- Embedding of `fs::remove_file`. -/
def fsRemove (fs : SimFS) (path : List Char) : Option SimFS :=
  match fs path with
  | none => none
  | some _ => some (fun p => if p = path then none else fs p)

/-- replace_file_atomic from postprocess.rs: rename original to backup,
rename candidate into place (restoring the backup on failure), then delete
the backup (deletion failure only logged).  Returns the final filesystem
and whether an error was returned to the caller. -/
def replace_file_atomic (fs : SimFS) (original_path transcoded_path backup_path : List Char)
    (fail2 : Bool) : SimFS × Bool :=
  match fsRename fs original_path backup_path with
  | none => (fs, true)
  | some fs1 =>
    match (if fail2 then none else fsRename fs1 transcoded_path original_path) with
    | some fs2 =>
      match fsRemove fs2 backup_path with
      | some fs3 => (fs3, false)
      | none => (fs2, false)
    | none =>
      match fsRename fs1 backup_path original_path with
      | some fsr => (fsr, true)
      | none => (fs1, true)

/-! ## Claim C2 -/

/-- C2: in every call of replace_file_atomic in which the first rename
(original to backup) succeeds and the second rename (candidate to the
original path) fails — whether injected or because the candidate is
missing — the backup is renamed back to the original path, so the original
path again holds its prior contents, no backup file remains, and an error
is returned to the caller. -/
theorem C2_replace_file_atomic (fs : SimFS) (orig transcoded backup prior : List Char)
    (fail2 : Bool)
    (h1 : fs orig = some prior)
    (h2 : backup ≠ orig)
    (hf : fail2 = true ∨ (transcoded ≠ backup ∧ fs transcoded = none)) :
    (replace_file_atomic fs orig transcoded backup fail2).2 = true
    ∧ (replace_file_atomic fs orig transcoded backup fail2).1 orig = some prior
    ∧ (replace_file_atomic fs orig transcoded backup fail2).1 backup = none := by
  have hs1 : fsRename fs orig backup
      = some (fun p => if p = backup then some prior else if p = orig then none else fs p) := by
    simp [fsRename, h1]
  set fs1 : SimFS := fun p => if p = backup then some prior else if p = orig then none else fs p
    with hfs1
  have hb1 : fs1 backup = some prior := by simp [hfs1]
  have hstep2 : (if fail2 then none else fsRename fs1 transcoded orig) = (none : Option SimFS) := by
    rcases hf with hf | ⟨htb, htn⟩
    · rw [hf]
      rfl
    · cases hfb : fail2
      · have ht1 : fs1 transcoded = none := by
          by_cases hto : transcoded = orig
          · simp [hfs1, hto, h2.symm]
          · simp [hfs1, htb, hto, htn]
        simp [fsRename, ht1]
      · rfl
  have hres : fsRename fs1 backup orig
      = some (fun p => if p = orig then some prior else if p = backup then none else fs1 p) := by
    simp [fsRename, hb1]
  simp only [replace_file_atomic, hs1, hstep2, hres]
  refine ⟨by trivial, ?_, ?_⟩
  · simp
  · simp [h2]

/-- Demonstration filesystem for the C2 witness: the original file and the
transcoded candidate exist, nothing else does. -/
def demoFS : SimFS := fun p =>
  if p = ("movie.mkv").data then some (("ORIGINAL").data)
  else if p = ("movie.av1-tmp.mkv").data then some (("CANDIDATE").data)
  else none

/-- Witness for C2: an injected failure of the second rename on a concrete
two-file directory ends with the original path restored, no backup file,
and an error returned. -/
theorem C2_replace_file_atomic_witness :
    (replace_file_atomic demoFS (("movie.mkv").data) (("movie.av1-tmp.mkv").data)
        (("movie.bak-1234").data) true).2 = true
    ∧ (replace_file_atomic demoFS (("movie.mkv").data) (("movie.av1-tmp.mkv").data)
        (("movie.bak-1234").data) true).1 (("movie.mkv").data) = some (("ORIGINAL").data)
    ∧ (replace_file_atomic demoFS (("movie.mkv").data) (("movie.av1-tmp.mkv").data)
        (("movie.bak-1234").data) true).1 (("movie.bak-1234").data) = none :=
  C2_replace_file_atomic demoFS (("movie.mkv").data) (("movie.av1-tmp.mkv").data)
    (("movie.bak-1234").data) (("ORIGINAL").data) true (by decide) (by decide) (Or.inl rfl)

/-! ## job.rs and persistence.rs (C7, C8)

`TranscodeJob` embeds the job record; chrono timestamps are abstract Int
values.  serde_json is external library code: it is modelled as an
injective encoding with decode of encode giving back the job, and a
corrupt record file is a `garbage` document that fails to decode.  A jobs
directory is a list of (file name, document) entries; a missing directory
is `none`. -/

/-- JobStatus from job.rs. -/
inductive JobStatus where
  | Pending
  | Running
  | Success
  | Failed
  | Skipped
  deriving DecidableEq

/-- TranscodeJob from job.rs. -/
structure TranscodeJob where
  id : List Char
  source_path : List Char
  output_path : Option (List Char)
  created_at : Int
  started_at : Option Int
  finished_at : Option Int
  status : JobStatus
  reason : Option (List Char)
  original_bytes : Option Nat
  new_bytes : Option Nat
  is_webrip_like : Bool
  deriving DecidableEq

/-- A serialized document on disk: either a well-formed job record or
corrupt content. -/
inductive JsonDoc where
  | job (j : TranscodeJob)
  | garbage (s : List Char)
  deriving DecidableEq

/-- Embedding of `serde_json::to_string_pretty` for jobs. -/
def encode_job (j : TranscodeJob) : JsonDoc := JsonDoc.job j

/-- Embedding of `serde_json::from_str::<TranscodeJob>`: inverts encode_job
and fails on corrupt content. -/
def decode_job : JsonDoc → Option TranscodeJob
  | JsonDoc.job j => some j
  | JsonDoc.garbage _ => none

/-- Helper for extname: walks the reversed file name accumulating the
characters after the last '.'. -/
def extFromRev (acc : List Char) : List Char → Option (List Char)
  | [] => none
  | c :: cs => if c = '.' then (if cs.isEmpty then none else some acc) else extFromRev (c :: acc) cs

/-- Embedding of Rust `Path::extension` for flat file names: the part after
the last '.', provided a nonempty stem precedes it. -/
def extname (name : List Char) : Option (List Char) := extFromRev [] name.reverse

/-- Embedding of `fs::write` into a directory listing: fully overwrites the
named file, creating it if absent. -/
def writeFile : List (List Char × JsonDoc) → List Char → JsonDoc → List (List Char × JsonDoc)
  | [], name, c => [(name, c)]
  | e :: rest, name, c => if e.1 = name then (name, c) :: rest else e :: writeFile rest name c

/-- save_job_state from persistence.rs: creates the directory if absent and
writes the serialized job to `<id>.json`, overwriting in place. -/
def save_job_state (job : TranscodeJob) (dir : Option (List (List Char × JsonDoc))) :
    Option (List (List Char × JsonDoc)) :=
  let entries := match dir with
    | none => []
    | some l => l
  some (writeFile entries (job.id ++ ((".json").data)) (encode_job job))

/-- load_job_file from persistence.rs: read and deserialize one record. -/
def load_job_file (content : JsonDoc) : Option TranscodeJob := decode_job content

/-- The enumeration loop of load_all_jobs: skip entries whose extension is
not json, push records that deserialize, skip (with a logged warning) those
that do not. -/
def load_all_loop : List (List Char × JsonDoc) → List TranscodeJob
  | [] => []
  | e :: rest =>
    if extname e.1 = some (("json").data) then
      match load_job_file e.2 with
      | some job => job :: load_all_loop rest
      | none => load_all_loop rest
    else load_all_loop rest

/-- load_all_jobs from persistence.rs: a missing directory yields the empty
list, otherwise the enumeration loop runs. -/
def load_all_jobs (dir : Option (List (List Char × JsonDoc))) : List TranscodeJob :=
  match dir with
  | none => []
  | some entries => load_all_loop entries

theorem extFromRev_step (acc : List Char) (c : Char) (cs : List Char) (h : ¬ c = '.') :
    extFromRev acc (c :: cs) = extFromRev (c :: acc) cs := by
  simp only [extFromRev]
  rw [if_neg h]

theorem extFromRev_dot (acc : List Char) (cs : List Char) (h : cs.isEmpty = false) :
    extFromRev acc ('.' :: cs) = some acc := by
  simp [extFromRev, h]

theorem extname_append_json (l : List Char) (hl : l ≠ []) :
    extname (l ++ ((".json").data)) = some (("json").data) := by
  have hrev : (l ++ ((".json").data)).reverse
      = 'n' :: 'o' :: 's' :: 'j' :: '.' :: l.reverse := by
    rw [List.reverse_append]
    rfl
  have hne : l.reverse.isEmpty = false := by
    rw [Bool.eq_false_iff]
    intro hh
    exact hl (List.reverse_eq_nil_iff.mp (List.isEmpty_iff.mp hh))
  unfold extname
  rw [hrev, extFromRev_step _ _ _ (by decide), extFromRev_step _ _ _ (by decide),
    extFromRev_step _ _ _ (by decide), extFromRev_step _ _ _ (by decide),
    extFromRev_dot _ _ hne]

theorem writeFile_mem (d : List (List Char × JsonDoc)) (name : List Char) (c : JsonDoc) :
    (name, c) ∈ writeFile d name c := by
  induction d with
  | nil => simp [writeFile]
  | cons e rest ih =>
    by_cases he : e.1 = name
    · simp [writeFile, he]
    · simp only [writeFile, if_neg he]
      exact List.mem_cons_of_mem e ih

theorem writeFile_overwrite (d : List (List Char × JsonDoc)) (name : List Char)
    (c1 c2 : JsonDoc) :
    writeFile (writeFile d name c1) name c2 = writeFile d name c2 := by
  induction d with
  | nil => simp [writeFile]
  | cons e rest ih =>
    by_cases he : e.1 = name
    · simp [writeFile, he]
    · simp only [writeFile, if_neg he, ih]

theorem load_all_loop_mem (entries : List (List Char × JsonDoc)) (name : List Char)
    (j : TranscodeJob) (hmem : (name, JsonDoc.job j) ∈ entries)
    (hext : extname name = some (("json").data)) :
    j ∈ load_all_loop entries := by
  induction entries with
  | nil => exact absurd hmem (List.not_mem_nil _)
  | cons e rest ih =>
    rcases List.mem_cons.mp hmem with he | he
    · subst he
      simp [load_all_loop, hext, load_job_file, decode_job]
    · unfold load_all_loop
      split
      · split
        · exact List.mem_cons_of_mem _ (ih he)
        · exact ih he
      · exact ih he

theorem load_all_loop_eq_filterMap (entries : List (List Char × JsonDoc)) :
    load_all_loop entries
      = entries.filterMap (fun e =>
          if extname e.1 = some (("json").data) then decode_job e.2 else none) := by
  induction entries with
  | nil => rfl
  | cons e rest ih =>
    obtain ⟨name, c⟩ := e
    by_cases hext : extname name = some (("json").data)
    · cases c with
      | job j => simp [load_all_loop, load_job_file, decode_job, hext, List.filterMap_cons, ih]
      | garbage s => simp [load_all_loop, load_job_file, decode_job, hext, List.filterMap_cons, ih]
    · simp [load_all_loop, hext, List.filterMap_cons, ih]

/-! ## Claim C7 -/

/-- C7: saving a job (with its nonempty UUID-generated id) into any
directory state, creating the directory if absent, makes load_all_jobs
return a record equal to the saved job in id, status, source and output
path, and original and new byte counts; saving again under the same id
fully overwrites the same record file in place, so the store after two
saves under one id equals the store after the single final save and no
duplicate record for that id can appear. -/
theorem C7_jobstore_roundtrip (j j2 : TranscodeJob)
    (dir : Option (List (List Char × JsonDoc)))
    (hid_ne : j.id ≠ []) (hid_eq : j2.id = j.id) :
    (∃ r ∈ load_all_jobs (save_job_state j dir),
        r.id = j.id ∧ r.status = j.status ∧ r.source_path = j.source_path
          ∧ r.output_path = j.output_path ∧ r.original_bytes = j.original_bytes
          ∧ r.new_bytes = j.new_bytes)
    ∧ save_job_state j (save_job_state j2 dir) = save_job_state j dir := by
  constructor
  · refine ⟨j, ?_, rfl, rfl, rfl, rfl, rfl, rfl⟩
    unfold save_job_state load_all_jobs
    exact load_all_loop_mem _ _ _ (writeFile_mem _ _ _) (extname_append_json j.id hid_ne)
  · unfold save_job_state
    simp only [hid_eq]
    rw [writeFile_overwrite]

/-- Concrete job used by the job-store witnesses. -/
def demo_job : TranscodeJob :=
  { id := ("j1").data, source_path := ("a.mkv").data, output_path := none,
    created_at := 0, started_at := none, finished_at := none,
    status := JobStatus.Success, reason := none,
    original_bytes := some 1000, new_bytes := some 800, is_webrip_like := false }

/-- Witness for C7: a concrete job saved into a missing directory is the
record load_all_jobs returns, and re-saving it changes nothing. -/
theorem C7_jobstore_roundtrip_witness :
    (∃ r ∈ load_all_jobs (save_job_state demo_job none),
        r.id = demo_job.id ∧ r.status = demo_job.status
          ∧ r.source_path = demo_job.source_path
          ∧ r.output_path = demo_job.output_path
          ∧ r.original_bytes = demo_job.original_bytes
          ∧ r.new_bytes = demo_job.new_bytes)
    ∧ save_job_state demo_job (save_job_state demo_job none) = save_job_state demo_job none :=
  C7_jobstore_roundtrip demo_job demo_job none (by decide) rfl

/-! ## Claim C8 -/

/-- C8: load_all_jobs on a missing directory yields the empty list rather
than an error; on a present directory it returns exactly the records of
the matching (.json) files that deserialize, skipping every one that
fails to deserialize; in particular a directory holding one corrupt and
one valid record yields exactly the valid one. -/
theorem C8_load_all_skips (entries : List (List Char × JsonDoc))
    (n1 n2 g : List Char) (j : TranscodeJob)
    (h1 : extname n1 = some (("json").data)) (h2 : extname n2 = some (("json").data)) :
    load_all_jobs none = []
    ∧ load_all_jobs (some entries)
        = entries.filterMap (fun e =>
            if extname e.1 = some (("json").data) then decode_job e.2 else none)
    ∧ load_all_jobs (some [(n1, JsonDoc.garbage g), (n2, JsonDoc.job j)]) = [j] := by
  refine ⟨rfl, load_all_loop_eq_filterMap entries, ?_⟩
  simp [load_all_jobs, load_all_loop, h1, h2, load_job_file, decode_job]

/-- Witness for C8 on a concrete directory with one corrupt and one valid
record: only the valid record is loaded, and a missing directory loads
empty. -/
theorem C8_load_all_skips_witness :
    load_all_jobs none = []
    ∧ load_all_jobs (some [])
        = List.filterMap (fun e : List Char × JsonDoc =>
            if extname e.1 = some (("json").data) then decode_job e.2 else none) []
    ∧ load_all_jobs (some [((("bad.json").data), JsonDoc.garbage (("not-json").data)),
        ((("good.json").data), JsonDoc.job demo_job)]) = [demo_job] :=
  C8_load_all_skips [] (("bad.json").data) (("good.json").data) (("not-json").data) demo_job
    (by decide) (by decide)

/-! ## av1d/main.rs: handle_filesystem_event dedup (C9)

The daemon keeps the in-flight path set behind a mutex: the handler locks
it, tests membership, inserts, unlocks, then spawns the workflow task,
which removes the path when it finishes.  Because the test-and-insert runs
entirely under the lock, it is embedded as one atomic step of a transition
system; `spawned` logs every workflow actually spawned so executions can be
counted. -/

/-- Scheduler state: the in-flight path set and the log of spawned
workflows. -/
structure SchedState where
  processing : List (List Char)
  spawned : List (List Char)
  deriving DecidableEq

/-- The per-path body of handle_filesystem_event from av1d/main.rs: under
the lock, a path already in the processing set is ignored; otherwise it is
inserted and a workflow task is spawned. -/
def handle_event (s : SchedState) (p : List Char) : SchedState :=
  if p ∈ s.processing then s
  else { processing := p :: s.processing, spawned := p :: s.spawned }

/-- End of the spawned task in handle_filesystem_event: the path is removed
from the processing set. -/
def finish_workflow (s : SchedState) (p : List Char) : SchedState :=
  { s with processing := s.processing.erase p }

/-- Scheduler events: a filesystem discovery for a path, or the completion
of the workflow for a path. -/
inductive SchedEvent where
  | discover (p : List Char)
  | finish (p : List Char)
  deriving DecidableEq

/-- One scheduler transition. -/
def sched_step (s : SchedState) : SchedEvent → SchedState
  | SchedEvent.discover p => handle_event s p
  | SchedEvent.finish p => finish_workflow s p

/-- A run of the scheduler over a sequence of events. -/
def sched_run (s : SchedState) (evs : List SchedEvent) : SchedState :=
  evs.foldl sched_step s

theorem sched_run_discover_of_mem (p : List Char) (m : Nat) (t : SchedState)
    (ht : p ∈ t.processing) :
    sched_run t (List.replicate m (SchedEvent.discover p)) = t := by
  induction m with
  | zero => rfl
  | succ m ih =>
    rw [List.replicate_succ]
    show sched_run (sched_step t (SchedEvent.discover p)) (List.replicate m (SchedEvent.discover p)) = t
    rw [show sched_step t (SchedEvent.discover p) = t from by
      simp [sched_step, handle_event, ht]]
    exact ih

/-! ## Claim C9 -/

/-- C9: any positive number of discovery events for one path, arriving
while that path is not yet in flight, spawns exactly one workflow — the
mutex-protected membership test and insert is one atomic step, so the
second of two concurrent discoveries finds the path present and is
ignored; a discovery for a path already in the in-flight set leaves the
scheduler state unchanged; and finishing the workflow releases the path
from the in-flight set. -/
theorem C9_scheduler_dedup (s : SchedState) (p : List Char) (n : Nat)
    (hnotin : p ∉ s.processing) (hn : 0 < n) :
    ((sched_run s (List.replicate n (SchedEvent.discover p))).spawned.count p
        = s.spawned.count p + 1)
    ∧ (∀ t : SchedState, p ∈ t.processing → handle_event t p = t)
    ∧ (∀ t : SchedState, t.processing.Nodup → p ∉ (finish_workflow t p).processing) := by
  refine ⟨?_, ?_, ?_⟩
  · obtain ⟨m, rfl⟩ : ∃ m, n = m + 1 := ⟨n - 1, by omega⟩
    rw [List.replicate_succ]
    show (sched_run (sched_step s (SchedEvent.discover p))
        (List.replicate m (SchedEvent.discover p))).spawned.count p = s.spawned.count p + 1
    have hstep : sched_step s (SchedEvent.discover p)
        = { processing := p :: s.processing, spawned := p :: s.spawned } := by
      simp [sched_step, handle_event, hnotin]
    rw [hstep, sched_run_discover_of_mem p m _ (List.mem_cons_self p s.processing)]
    simp
  · intro t ht
    simp [handle_event, ht]
  · intro t ht
    simp only [finish_workflow]
    exact ht.not_mem_erase

/-- Witness for C9: from an idle scheduler, two discovery events for one
concrete path spawn exactly one workflow, a third discovery while in
flight is a no-op, and finishing releases the path. -/
theorem C9_scheduler_dedup_witness :
    ((sched_run ⟨[], []⟩ (List.replicate 2 (SchedEvent.discover (("a.mkv").data)))).spawned.count
        (("a.mkv").data) = ([] : List (List Char)).count (("a.mkv").data) + 1)
    ∧ (∀ t : SchedState, ("a.mkv").data ∈ t.processing → handle_event t (("a.mkv").data) = t)
    ∧ (∀ t : SchedState, t.processing.Nodup →
        ("a.mkv").data ∉ (finish_workflow t (("a.mkv").data)).processing) :=
  C9_scheduler_dedup ⟨[], []⟩ (("a.mkv").data) 2 (by decide) (by decide)

/-! ## metadata.rs derived accessors and transcode.rs (C10)

Paths are modelled as flat file names; `file_stem` embeds
`Path::file_stem` for such names, which is None for the empty path and the
special names "." and "..". -/

/-- Embedding of `Iterator::find`: first element satisfying the predicate. -/
def find1? {α : Type} (p : α → Bool) : List α → Option α
  | [] => none
  | x :: xs => if p x then some x else find1? p xs

/-- Embedding of `Iterator::position`: index of the first element
satisfying the predicate. -/
def position? {α : Type} (p : α → Bool) : List α → Option Nat
  | [] => none
  | x :: xs => if p x then some 0 else (position? p xs).map (· + 1)

/-- FileMetadata::default_video_stream from metadata.rs: first stream
flagged default, else the first stream. -/
def FileMetadata.default_video_stream (m : FileMetadata) : Option VideoStreamInfo :=
  match find1? (fun s => s.is_default) m.video_streams with
  | some s => some s
  | none => m.video_streams.head?

/-- FileMetadata::default_video_stream_index from metadata.rs: position of
the first stream flagged default, else 0 for a nonempty stream list. -/
def FileMetadata.default_video_stream_index (m : FileMetadata) : Option Nat :=
  match position? (fun s => s.is_default) m.video_streams with
  | some i => some i
  | none => if m.video_streams.isEmpty then none else some 0

/-- Embedding of `Path::file_stem` for flat file names. -/
def file_stem (p : List Char) : Option (List Char) :=
  if p = [] ∨ p = ((".").data) ∨ p = (("..").data) then none
  else
    match extname p with
    | some e => some (p.take (p.length - (e.length + 1)))
    | none => some p

/-- TranscodeParams from transcode.rs. -/
structure TranscodeParams where
  input_path : List Char
  output_path : List Char
  video_stream_index : Nat
  quality : Nat
  surface : List Char
  is_webrip : Bool
  deriving DecidableEq

/-- TranscodeParams::from_metadata from transcode.rs: default stream,
default stream index, quality and surface from that stream, and a
`<stem>.av1-tmp.mkv` output path. -/
def TranscodeParams.from_metadata (input_path : List Char) (metadata : FileMetadata)
    (is_webrip : Bool) : Option TranscodeParams :=
  match metadata.default_video_stream with
  | none => none
  | some video_stream =>
    match metadata.default_video_stream_index with
    | none => none
    | some video_stream_index =>
      match file_stem input_path with
      | none => none
      | some stem =>
        some { input_path := input_path,
               output_path := stem ++ ((".av1-tmp.mkv").data),
               video_stream_index := video_stream_index,
               quality := choose_quality video_stream.height,
               surface := choose_surface video_stream.bit_depth,
               is_webrip := is_webrip }

theorem position_none_find_none {α : Type} (p : α → Bool) (l : List α)
    (h : position? p l = none) : find1? p l = none := by
  induction l with
  | nil => rfl
  | cons x xs ih =>
    by_cases hx : p x
    · simp [position?, hx] at h
    · simp only [position?, if_neg hx, Option.map_eq_none'] at h
      simp only [find1?, if_neg hx]
      exact ih h

theorem position_some_get {α : Type} (p : α → Bool) (l : List α) :
    ∀ i, position? p l = some i → l.get? i = find1? p l ∧ ∃ s, find1? p l = some s := by
  induction l with
  | nil => intro i h; exact absurd h (by simp [position?])
  | cons x xs ih =>
    intro i h
    by_cases hx : p x
    · simp only [position?, if_pos hx] at h
      cases h
      exact ⟨by simp [find1?, hx], x, by simp [find1?, hx]⟩
    · simp only [position?, if_neg hx, Option.map_eq_some'] at h
      obtain ⟨i0, hi0, rfl⟩ := h
      obtain ⟨hget, s, hs⟩ := ih i0 hi0
      exact ⟨by simpa [find1?, hx] using hget, s, by simpa [find1?, hx] using hs⟩

theorem default_index_get (m : FileMetadata) :
    ∀ i, m.default_video_stream_index = some i →
      m.video_streams.get? i = m.default_video_stream := by
  intro i hi
  unfold FileMetadata.default_video_stream_index at hi
  unfold FileMetadata.default_video_stream
  cases hp : position? (fun s => s.is_default) m.video_streams with
  | some i0 =>
    rw [hp] at hi
    obtain ⟨hget, s, hs⟩ := position_some_get (fun s => s.is_default) m.video_streams i0 hp
    obtain rfl : i0 = i := by injection hi
    rw [hs] at hget ⊢
    exact hget
  | none =>
    rw [hp] at hi
    rw [position_none_find_none _ _ hp]
    cases hl : m.video_streams with
    | nil => rw [hl] at hi; simp at hi
    | cons x xs =>
      rw [hl] at hi
      simp only [List.isEmpty_cons, if_neg] at hi
      have : i = 0 := by
        by_contra hne
        simp [Bool.false_eq_true] at hi
        omega
      subst this
      simp

/-! ## Claims C10 -/

/-- Concrete default 1080p 8-bit video stream, used by the C10
counterexample and witness. -/
def demo_stream : VideoStreamInfo :=
  { codec := ("h264").data, width := 1920, height := 1080, bit_depth := 8,
    is_default := true, avg_frame_rate := ("24/1").data,
    r_frame_rate := ("24/1").data }

/-- Concrete file metadata wrapping demo_stream. -/
def demo_meta : FileMetadata :=
  { video_streams := [demo_stream], format_name := ("matroska").data,
    tags_muxing_app := none, tags_major_brand := none,
    tags_compatible_brands := none, size := some 5000000000 }

/-- C10 counterexample: metadata with a video stream for which
TranscodeParams::from_metadata still returns None, because the empty input
path has no file stem — so from_metadata does not return None only when
there is no video stream. -/
theorem C10_from_metadata_counterexample :
    demo_meta.video_streams ≠ []
    ∧ TranscodeParams.from_metadata [] demo_meta false = none := by
  constructor
  · simp [demo_meta]
  · rfl

/-- C10 amended: default_video_stream and default_video_stream_index are
none exactly when there are no video streams; when the index is some i,
the stream at position i is precisely the default stream, so
from_metadata derives quality and surface from the same stream whose index
it selects for mapping; and from_metadata returns None exactly when there
is no video stream or the input path has no file stem. -/
theorem C10_default_stream_agreement (m : FileMetadata) (path : List Char) (w : Bool) :
    (m.default_video_stream = none ↔ m.video_streams = [])
    ∧ (m.default_video_stream_index = none ↔ m.video_streams = [])
    ∧ (∀ i, m.default_video_stream_index = some i →
        m.video_streams.get? i = m.default_video_stream)
    ∧ (TranscodeParams.from_metadata path m w = none ↔
        (m.video_streams = [] ∨ file_stem path = none))
    ∧ (∀ params, TranscodeParams.from_metadata path m w = some params →
        ∃ s i, m.default_video_stream = some s ∧ m.default_video_stream_index = some i
          ∧ params.video_stream_index = i ∧ m.video_streams.get? i = some s
          ∧ params.quality = choose_quality s.height
          ∧ params.surface = choose_surface s.bit_depth) := by
  have h1 : m.default_video_stream = none ↔ m.video_streams = [] := by
    unfold FileMetadata.default_video_stream
    cases hl : m.video_streams with
    | nil => simp [find1?]
    | cons x xs =>
      cases hf : find1? (fun s => s.is_default) (x :: xs) with
      | some s => simp [hf]
      | none => simp [hf]
  have h2 : m.default_video_stream_index = none ↔ m.video_streams = [] := by
    unfold FileMetadata.default_video_stream_index
    cases hl : m.video_streams with
    | nil => simp [position?]
    | cons x xs =>
      cases hp : position? (fun s => s.is_default) (x :: xs) with
      | some i => simp [hp]
      | none => simp [hp]
  refine ⟨h1, h2, default_index_get m, ?_, ?_⟩
  · by_cases hl : m.video_streams = []
    · have hd : m.default_video_stream = none := h1.mpr hl
      unfold TranscodeParams.from_metadata
      rw [hd]
      simp [hl]
    · obtain ⟨s, hs⟩ := Option.ne_none_iff_exists'.mp (fun hh => hl (h1.mp hh))
      obtain ⟨i, hidx⟩ := Option.ne_none_iff_exists'.mp (fun hh => hl (h2.mp hh))
      unfold TranscodeParams.from_metadata
      rw [hs, hidx]
      cases hstem : file_stem path with
      | none => simp [hl, hstem]
      | some st => simp [hl, hstem]
  · intro params hp
    unfold TranscodeParams.from_metadata at hp
    cases hs : m.default_video_stream with
    | none => rw [hs] at hp; exact absurd hp (by simp)
    | some s =>
      rw [hs] at hp
      cases hidx : m.default_video_stream_index with
      | none => rw [hidx] at hp; exact absurd hp (by simp)
      | some i =>
        rw [hidx] at hp
        cases hstem : file_stem path with
        | none => rw [hstem] at hp; exact absurd hp (by simp)
        | some st =>
          rw [hstem] at hp
          cases hp
          refine ⟨s, i, rfl, rfl, rfl, ?_, rfl, rfl⟩
          rw [default_index_get m i hidx, hs]

/-- Witness for C10: on concrete single-stream metadata, the selected index
0 names exactly the default stream. -/
theorem C10_default_stream_agreement_witness :
    demo_meta.video_streams.get? 0 = demo_meta.default_video_stream :=
  (C10_default_stream_agreement demo_meta (("a.mkv").data) false).2.2.1 0 (by rfl)

end Av1Top
